import Mathlib

/-!
# Register transport of the LoRa concentrator over SPI

Shallow embedding of `libloragw/src/loragw_spi.native.c`: device open and
configuration, single-byte register write and read, burst write and burst read.

Modelling conventions

* A pointer argument that may be `NULL` is an `Option`; `none` is the null pointer.
  The handle `spi_target` points to an `int` holding the file descriptor, so it is
  an `Option Int`.
* Bytes (`uint8_t`) and sizes (`uint16_t`) are natural numbers; the theorems carry
  the range of the C type as a hypothesis where the claim names it.
* `int` arithmetic is done in `ℤ`.  The only `int` that accumulates is
  `byte_transfered`; `byte_transfered_fits_int` shows that it stays inside the
  32-bit range for every transport whose reported counts lie in `-2^14 .. 2^14`.
* The bus driver (`ioctl(fd, SPI_IOC_MESSAGE(n), k)`) is a parameter: a function
  of an arbitrary driver state, total and otherwise unconstrained.
* Every operation returns, beside its return code, the caller-visible memory
  after the call, the driver state, and the list of bus calls it issued, oldest
  first, each with the count the driver reported for it.
* `DEBUG_MSG` and `DEBUG_PRINTF` expand to nothing unless `DEBUG_SPI == 1`, and
  then only write to `stderr`; they are not part of the model.
* The `for` loops of the burst functions are run with a fuel argument; `none`
  means the fuel ran out before `size_to_do` reached zero.
-/

namespace LoragwSpi

/-! ## Constants -/

/-- Modelled from the spec: the return codes `LGW_SPI_SUCCESS` and `LGW_SPI_ERROR`
are declared in `loragw_spi.h`, which is not among the sources; section 6 of the
spec gives exactly two outcomes at this layer, Success and Error. -/
inductive Status where
  | LGW_SPI_SUCCESS
  | LGW_SPI_ERROR
deriving DecidableEq, Repr

/-- Private constant `READ_ACCESS` of loragw_spi.native.c. -/
def READ_ACCESS : Nat := 0x00

/-- Private constant `WRITE_ACCESS` of loragw_spi.native.c. -/
def WRITE_ACCESS : Nat := 0x80

/-- Platform parameter `SPI_SPEED` of mtk.h. -/
def SPI_SPEED : Nat := 8000000

/-- Platform parameter `SPI_CS_CHANGE` of mtk.h. -/
def SPI_CS_CHANGE : Nat := 0

/-- Constant `SPI_MODE_0` of the Linux header linux/spi/spidev.h. -/
def SPI_MODE_0 : Int := 0

/-! ## Bus transactions -/

/-- The buffers a transfer descriptor can point into: the null pointer, the local
`command` byte, the locals `out_buf` and `in_buf`, and the caller's buffer `data`
at a byte offset (`data + offset`). -/
inductive Ptr where
  | NULL
  | command
  | out_buf
  | in_buf
  | data (offset : Nat)
deriving DecidableEq, Repr

/-- The fields of `struct spi_ioc_transfer` that the code ever sets; the remaining
fields stay zero after `memset`. -/
structure spi_ioc_transfer where
  tx_buf : Ptr
  rx_buf : Ptr
  len : Nat
  speed_hz : Nat
  cs_change : Nat
  bits_per_word : Nat
deriving DecidableEq, Repr

/-- A descriptor after `memset(&k, 0, sizeof(k))`. -/
def spi_ioc_transfer.cleared : spi_ioc_transfer :=
  ⟨Ptr.NULL, Ptr.NULL, 0, 0, 0, 0⟩

/-- The argument of one `ioctl(fd, SPI_IOC_MESSAGE(n), k)`: the `n` descriptors and,
for each of them, the `len` bytes found at its `tx_buf` (`none` for a null
`tx_buf`). -/
structure Message where
  k : List spi_ioc_transfer
  tx : List (Option (List Nat))
deriving DecidableEq, Repr

/-- What one `SPI_IOC_MESSAGE` call gives back: the `int` result, the bytes the
driver delivers into the receive buffer of the message (every message built here
has at most one descriptor with a non-null `rx_buf`), and the driver state. -/
structure IoctlResult (σ : Type) where
  ret : Int
  rx : List Nat
  dev : σ

/-- The bus driver: driver state, file descriptor and message to result. -/
abbrev Driver (σ : Type) := σ → Int → Message → IoctlResult σ

/-- One issued bus call with the count the driver reported for it. -/
structure BusCall where
  msg : Message
  ret : Int
deriving DecidableEq, Repr

/-- Outcome of a register operation: return code, caller-visible memory after the
call, driver state, and the bus calls issued, oldest first. -/
structure Result (σ : Type) (α : Type) where
  ret : Status
  out : α
  dev : σ
  bus : List BusCall

/-- The `len` bytes found at `buf + offset`. -/
def load (buf : List Nat) (offset len : Nat) : List Nat :=
  (buf.drop offset).take len

/-- The buffer after `bytes` have been written at `buf + offset`; nothing is
written past the end of the buffer. -/
def store (buf : List Nat) (offset : Nat) (bytes : List Nat) : List Nat :=
  buf.take offset ++ bytes.take (buf.length - offset) ++ buf.drop (offset + bytes.length)

/-! ## Single-register access -/

/-- Simple write, `lgw_spi_w`. -/
def lgw_spi_w {σ : Type} (ioctl : Driver σ) (s : σ) (spi_target : Option Int)
    (address data : Nat) : Result σ Unit :=
  match spi_target with
  | none => ⟨Status.LGW_SPI_ERROR, (), s, []⟩
  | some spi_device =>
    let out_buf : List Nat := [WRITE_ACCESS ||| (address &&& 0x7F), data]
    let k : spi_ioc_transfer :=
      ⟨Ptr.out_buf, Ptr.NULL, 2, SPI_SPEED, SPI_CS_CHANGE, 8⟩
    let m : Message := ⟨[k], [some (load out_buf 0 k.len)]⟩
    let a := ioctl s spi_device m
    if a.ret ≠ 2 then
      ⟨Status.LGW_SPI_ERROR, (), a.dev, [⟨m, a.ret⟩]⟩
    else
      ⟨Status.LGW_SPI_SUCCESS, (), a.dev, [⟨m, a.ret⟩]⟩

/-- Simple read, `lgw_spi_r`.  `data` is the byte `*data` before the call (`none`
for a null `data`), `in_buf` the indeterminate initial content of the local
`in_buf`; the result holds `*data` after the call. -/
def lgw_spi_r {σ : Type} (CFG_SPI_HALF_DUPLEX : Nat) (ioctl : Driver σ) (s : σ)
    (spi_target : Option Int) (address : Nat) (data : Option Nat) (in_buf : List Nat) :
    Result σ (Option Nat) :=
  match spi_target with
  | none => ⟨Status.LGW_SPI_ERROR, data, s, []⟩
  | some spi_device =>
    match data with
    | none => ⟨Status.LGW_SPI_ERROR, none, s, []⟩
    | some old =>
      let out_buf : List Nat := [READ_ACCESS ||| (address &&& 0x7F), 0x00]
      if CFG_SPI_HALF_DUPLEX = 1 then
        let k0 : spi_ioc_transfer := ⟨Ptr.out_buf, Ptr.NULL, 1, 0, 0, 0⟩
        let k1 : spi_ioc_transfer := ⟨Ptr.NULL, Ptr.in_buf, 1, 0, SPI_CS_CHANGE, 0⟩
        let m : Message := ⟨[k0, k1], [some (load out_buf 0 k0.len), none]⟩
        let a := ioctl s spi_device m
        let in_buf := store in_buf 0 (a.rx.take k1.len)
        if a.ret ≠ 2 then
          ⟨Status.LGW_SPI_ERROR, some old, a.dev, [⟨m, a.ret⟩]⟩
        else
          ⟨Status.LGW_SPI_SUCCESS, some (in_buf.getD 0 0), a.dev, [⟨m, a.ret⟩]⟩
      else
        let k : spi_ioc_transfer := ⟨Ptr.out_buf, Ptr.in_buf, 2, 0, SPI_CS_CHANGE, 0⟩
        let m : Message := ⟨[k], [some (load out_buf 0 k.len)]⟩
        let a := ioctl s spi_device m
        let in_buf := store in_buf 0 (a.rx.take k.len)
        if a.ret ≠ 2 then
          ⟨Status.LGW_SPI_ERROR, some old, a.dev, [⟨m, a.ret⟩]⟩
        else
          ⟨Status.LGW_SPI_SUCCESS, some (in_buf.getD 1 0), a.dev, [⟨m, a.ret⟩]⟩

/-! ## Burst transfer -/

/-- The `for` loop of `lgw_spi_wb` (lines 292-300), from the state
`(i, size_to_do, byte_transfered)`; the first argument after the fixed ones is the
fuel.  Returns the final `byte_transfered`, the driver state and the bus calls. -/
def wb_loop {σ : Type} (LGW_BURST_CHUNK : Nat) (ioctl : Driver σ) (spi_device : Int)
    (command : Nat) (data : List Nat) :
    Nat → Nat → Nat → Int → σ → List BusCall → Option (Int × σ × List BusCall)
  | 0, _, size_to_do, byte_transfered, s, bus =>
    if size_to_do > 0 then none else some (byte_transfered, s, bus)
  | fuel + 1, i, size_to_do, byte_transfered, s, bus =>
    if size_to_do > 0 then
      let chunk_size := if size_to_do < LGW_BURST_CHUNK then size_to_do else LGW_BURST_CHUNK
      let offset := i * LGW_BURST_CHUNK
      let k0 : spi_ioc_transfer := ⟨Ptr.command, Ptr.NULL, 1, 0, 0, 0⟩
      let k1 : spi_ioc_transfer := ⟨Ptr.data offset, Ptr.NULL, chunk_size, 0, SPI_CS_CHANGE, 0⟩
      let m : Message := ⟨[k0, k1], [some [command], some (load data offset chunk_size)]⟩
      let a := ioctl s spi_device m
      wb_loop LGW_BURST_CHUNK ioctl spi_device command data fuel (i + 1)
        (size_to_do - chunk_size) (byte_transfered + (a.ret - 1)) a.dev (bus ++ [⟨m, a.ret⟩])
    else some (byte_transfered, s, bus)

/-- Burst (multiple-byte) write, `lgw_spi_wb`.  `data` is the content of the
caller's buffer (`none` for a null `data`). -/
def lgw_spi_wb {σ : Type} (LGW_BURST_CHUNK : Nat) (ioctl : Driver σ) (fuel : Nat) (s : σ)
    (spi_target : Option Int) (address : Nat) (data : Option (List Nat)) (size : Nat) :
    Option (Result σ (Option (List Nat))) :=
  match spi_target with
  | none => some ⟨Status.LGW_SPI_ERROR, data, s, []⟩
  | some spi_device =>
    match data with
    | none => some ⟨Status.LGW_SPI_ERROR, none, s, []⟩
    | some buf =>
      if size = 0 then some ⟨Status.LGW_SPI_ERROR, some buf, s, []⟩
      else
        let command := WRITE_ACCESS ||| (address &&& 0x7F)
        match wb_loop LGW_BURST_CHUNK ioctl spi_device command buf fuel 0 size 0 s [] with
        | none => none
        | some (byte_transfered, s1, bus) =>
          if byte_transfered ≠ (size : Int) then
            some ⟨Status.LGW_SPI_ERROR, some buf, s1, bus⟩
          else
            some ⟨Status.LGW_SPI_SUCCESS, some buf, s1, bus⟩

/-- The `for` loop of `lgw_spi_rb` (lines 346-354); as `wb_loop`, with the caller's
buffer threaded through because each data phase receives into `data + offset`. -/
def rb_loop {σ : Type} (LGW_BURST_CHUNK : Nat) (ioctl : Driver σ) (spi_device : Int)
    (command : Nat) :
    Nat → Nat → Nat → Int → List Nat → σ → List BusCall →
      Option (Int × List Nat × σ × List BusCall)
  | 0, _, size_to_do, byte_transfered, data, s, bus =>
    if size_to_do > 0 then none else some (byte_transfered, data, s, bus)
  | fuel + 1, i, size_to_do, byte_transfered, data, s, bus =>
    if size_to_do > 0 then
      let chunk_size := if size_to_do < LGW_BURST_CHUNK then size_to_do else LGW_BURST_CHUNK
      let offset := i * LGW_BURST_CHUNK
      let k0 : spi_ioc_transfer := ⟨Ptr.command, Ptr.NULL, 1, 0, 0, 0⟩
      let k1 : spi_ioc_transfer := ⟨Ptr.NULL, Ptr.data offset, chunk_size, 0, SPI_CS_CHANGE, 0⟩
      let m : Message := ⟨[k0, k1], [some [command], none]⟩
      let a := ioctl s spi_device m
      rb_loop LGW_BURST_CHUNK ioctl spi_device command fuel (i + 1)
        (size_to_do - chunk_size) (byte_transfered + (a.ret - 1))
        (store data offset (a.rx.take chunk_size)) a.dev (bus ++ [⟨m, a.ret⟩])
    else some (byte_transfered, data, s, bus)

/-- Burst (multiple-byte) read, `lgw_spi_rb`.  `data` is the content of the caller's
buffer before the call (`none` for a null `data`); the result holds it after. -/
def lgw_spi_rb {σ : Type} (LGW_BURST_CHUNK : Nat) (ioctl : Driver σ) (fuel : Nat) (s : σ)
    (spi_target : Option Int) (address : Nat) (data : Option (List Nat)) (size : Nat) :
    Option (Result σ (Option (List Nat))) :=
  match spi_target with
  | none => some ⟨Status.LGW_SPI_ERROR, data, s, []⟩
  | some spi_device =>
    match data with
    | none => some ⟨Status.LGW_SPI_ERROR, none, s, []⟩
    | some buf =>
      if size = 0 then some ⟨Status.LGW_SPI_ERROR, some buf, s, []⟩
      else
        let command := READ_ACCESS ||| (address &&& 0x7F)
        match rb_loop LGW_BURST_CHUNK ioctl spi_device command fuel 0 size 0 buf s [] with
        | none => none
        | some (byte_transfered, buf1, s1, bus) =>
          if byte_transfered ≠ (size : Int) then
            some ⟨Status.LGW_SPI_ERROR, some buf1, s1, bus⟩
          else
            some ⟨Status.LGW_SPI_SUCCESS, some buf1, s1, bus⟩

/-! ## Handle lifecycle: open -/

/-- The eight configuration requests `lgw_spi_open` passes to `ioctl`. -/
inductive Request where
  | SPI_IOC_WR_MODE
  | SPI_IOC_RD_MODE
  | SPI_IOC_WR_MAX_SPEED_HZ
  | SPI_IOC_RD_MAX_SPEED_HZ
  | SPI_IOC_WR_LSB_FIRST
  | SPI_IOC_RD_LSB_FIRST
  | SPI_IOC_WR_BITS_PER_WORD
  | SPI_IOC_RD_BITS_PER_WORD
deriving DecidableEq, Repr

/-- A system call made by `lgw_spi_open`.  An `ioctl` entry records the descriptor,
the request, and the value of the local `i` before and after the call. -/
inductive Sys where
  | malloc
  | open_dev
  | ioctl (fd : Int) (req : Request) (i_in i_out : Int)
  | close (fd : Int)
  | free
deriving DecidableEq, Repr

/-- The outcome of every system call `lgw_spi_open` can make: whether `malloc`
returns a block, the result of `open(SPI_DEV_PATH, O_RDWR)`, the result of each
configuration `ioctl`, and the value each readback request leaves in `i`. -/
structure OpenEnv where
  malloc_ok : Bool
  open_ret : Int
  ioctl_ret : Request → Int
  readback : Request → Int

/-- Outcome of `lgw_spi_open`: return code, the slot `*spi_target_ptr` after the
call (`none` when `spi_target_ptr` itself is null), and the system calls made,
oldest first. -/
structure OpenResult where
  ret : Status
  slot : Option (Option Int)
  sys : List Sys
deriving DecidableEq, Repr

/-- SPI initialization and configuration, `lgw_spi_open`.  The argument is the
slot `spi_target_ptr` points to (`none` for a null `spi_target_ptr`; the slot holds
`none` for a null handle and `some fd` for a descriptor block holding `fd`). -/
def lgw_spi_open (env : OpenEnv) (spi_target_ptr : Option (Option Int)) : OpenResult :=
  match spi_target_ptr with
  | none => ⟨Status.LGW_SPI_ERROR, none, []⟩
  | some slot =>
    if env.malloc_ok = false then
      ⟨Status.LGW_SPI_ERROR, some slot, [Sys.malloc]⟩
    else
      let dev := env.open_ret
      if dev < 0 then
        ⟨Status.LGW_SPI_ERROR, some slot, [Sys.malloc, Sys.open_dev]⟩
      else
        let i : Int := SPI_MODE_0
        let a := env.ioctl_ret Request.SPI_IOC_WR_MODE
        let b := env.ioctl_ret Request.SPI_IOC_RD_MODE
        let sys1 := [Sys.malloc, Sys.open_dev,
          Sys.ioctl dev Request.SPI_IOC_WR_MODE i i,
          Sys.ioctl dev Request.SPI_IOC_RD_MODE i (env.readback Request.SPI_IOC_RD_MODE)]
        if a < 0 ∨ b < 0 then
          ⟨Status.LGW_SPI_ERROR, some slot, sys1 ++ [Sys.close dev, Sys.free]⟩
        else
          let i : Int := SPI_SPEED
          let a := env.ioctl_ret Request.SPI_IOC_WR_MAX_SPEED_HZ
          let b := env.ioctl_ret Request.SPI_IOC_RD_MAX_SPEED_HZ
          let sys2 := sys1 ++ [Sys.ioctl dev Request.SPI_IOC_WR_MAX_SPEED_HZ i i,
            Sys.ioctl dev Request.SPI_IOC_RD_MAX_SPEED_HZ i
              (env.readback Request.SPI_IOC_RD_MAX_SPEED_HZ)]
          if a < 0 ∨ b < 0 then
            ⟨Status.LGW_SPI_ERROR, some slot, sys2 ++ [Sys.close dev, Sys.free]⟩
          else
            let i : Int := 0
            let a := env.ioctl_ret Request.SPI_IOC_WR_LSB_FIRST
            let b := env.ioctl_ret Request.SPI_IOC_RD_LSB_FIRST
            let sys3 := sys2 ++ [Sys.ioctl dev Request.SPI_IOC_WR_LSB_FIRST i i,
              Sys.ioctl dev Request.SPI_IOC_RD_LSB_FIRST i
                (env.readback Request.SPI_IOC_RD_LSB_FIRST)]
            if a < 0 ∨ b < 0 then
              ⟨Status.LGW_SPI_ERROR, some slot, sys3 ++ [Sys.close dev, Sys.free]⟩
            else
              let i : Int := 0
              let a := env.ioctl_ret Request.SPI_IOC_WR_BITS_PER_WORD
              let b := env.ioctl_ret Request.SPI_IOC_RD_BITS_PER_WORD
              let sys4 := sys3 ++ [Sys.ioctl dev Request.SPI_IOC_WR_BITS_PER_WORD i i,
                Sys.ioctl dev Request.SPI_IOC_RD_BITS_PER_WORD i
                  (env.readback Request.SPI_IOC_RD_BITS_PER_WORD)]
              if a < 0 ∨ b < 0 then
                ⟨Status.LGW_SPI_ERROR, some slot, sys4 ++ [Sys.close dev]⟩
              else
                ⟨Status.LGW_SPI_SUCCESS, some (some dev), sys4⟩

/-! ## Auxiliary definitions used by the statements -/

/-- Length of the data phase of a burst message, `k[1].len`. -/
def Message.data_len (m : Message) : Nat :=
  (m.k.getD 1 spi_ioc_transfer.cleared).len

/-- The message `lgw_spi_wb` builds for chunk number `idx` when `rem` bytes are
still to do: a command phase of one byte, then a data phase transmitting from
`data + idx * C`. -/
def wb_message (C command : Nat) (data : List Nat) (idx rem : Nat) : Message :=
  ⟨[⟨Ptr.command, Ptr.NULL, 1, 0, 0, 0⟩,
    ⟨Ptr.data (idx * C), Ptr.NULL, min C rem, 0, SPI_CS_CHANGE, 0⟩],
   [some [command], some (load data (idx * C) (min C rem))]⟩

/-- The message `lgw_spi_rb` builds for chunk number `idx` when `rem` bytes are
still to do: a command phase of one byte, then a data phase receiving into
`data + idx * C`. -/
def rb_message (C command : Nat) (idx rem : Nat) : Message :=
  ⟨[⟨Ptr.command, Ptr.NULL, 1, 0, 0, 0⟩,
    ⟨Ptr.NULL, Ptr.data (idx * C), min C rem, 0, SPI_CS_CHANGE, 0⟩],
   [some [command], none]⟩

/-- Test double of the round-trip property (spec section 8): a chip that appends
the bytes of every transmitted data phase to a queue, serves every receiving data
phase from the front of that queue, and always reports the full length of the
message. -/
def echo_chip : Driver (List Nat) := fun q _ m =>
  let total : Int := ((m.k.map (fun k => k.len)).sum : Nat)
  match m.k.getLast?, m.tx.getLast? with
  | some _, some (some bytes) => ⟨total, [], q ++ bytes⟩
  | some k, some none => ⟨total, q.take k.len, q.drop k.len⟩
  | _, _ => ⟨total, [], q⟩

/-- A driver that reports the counts of a fixed script, one per call, and `-1`
once the script is used up; it delivers no bytes. -/
def scripted : Driver (List Int) := fun q _ _ =>
  ⟨q.headD (-1), [], q.tail⟩

/-- An environment in which `malloc`, `open` (descriptor 3) and all eight requests
succeed, and every readback leaves `v` in `i`. -/
def env_ok (v : Int) : OpenEnv :=
  ⟨true, 3, fun _ => 0, fun _ => v⟩

/-- As `env_ok 0`, except that the request `bad` fails with `-1`. -/
def env_fail (bad : Request) : OpenEnv :=
  ⟨true, 3, fun r => if r = bad then -1 else 0, fun _ => 0⟩


/-- The bytes transmitted in the data phase of a burst message, those found at
`k[1].tx_buf`; empty when that pointer is null. -/
def Message.payload (m : Message) : List Nat :=
  (m.tx.getD 1 none).getD []

/-! ## Lemmas on the burst loops -/

theorem ceil_div_zero (C : Nat) (hC : 1 ≤ C) : (0 + C - 1) / C = 0 := by
  apply Nat.div_eq_of_lt
  omega

theorem range_ceil_zero (C : Nat) (hC : 1 ≤ C) : List.range ((0 + C - 1) / C) = [] := by
  rw [ceil_div_zero C hC]; rfl

theorem ceil_div_step (C n : Nat) (hC : 1 ≤ C) (hn : 0 < n) :
    (n + C - 1) / C = (n - min C n + C - 1) / C + 1 := by
  rcases Nat.lt_or_ge n C with h | h
  · rw [Nat.min_eq_right (Nat.le_of_lt h)]
    have h1 : (n - n + C - 1) / C = 0 := by
      apply Nat.div_eq_of_lt
      omega
    have h2 : (n + C - 1) / C = 1 := by
      apply Nat.div_eq_of_lt_le <;> omega
    omega
  · rw [Nat.min_eq_left h]
    have h1 : n + C - 1 = (n - C + C - 1) + C := by omega
    rw [h1, Nat.add_div_right _ (by omega : 0 < C)]

theorem chunk_size_eq (C n : Nat) : (if n < C then n else C) = min C n := by
  split <;> omega

/-- Reindexing step shared by both loops: the chunks after the first one, counted
from `i + 1` with `n - min C n` bytes to do, are chunks `1, 2, ..` counted from `i`
with `n` bytes to do. -/
theorem chunk_shift {β : Type} (C n i : Nat) (hC : 1 ≤ C) (f : Nat → Nat → β) :
    List.map (fun j => f (i + 1 + j) (n - min C n - j * C))
        (List.range ((n - min C n + C - 1) / C))
      = List.map ((fun j => f (i + j) (n - j * C)) ∘ Nat.succ)
        (List.range ((n - min C n + C - 1) / C)) := by
  apply List.map_congr_left
  intro j hj
  have hj1 : j < (n - min C n + C - 1) / C := List.mem_range.mp hj
  have hmin : min C n ≤ n := Nat.min_le_right C n
  have hrem : 0 < n - min C n := by
    by_contra hcon
    have hz : n - min C n = 0 := by omega
    rw [hz, ceil_div_zero C hC] at hj1
    omega
  have hCn : min C n = C := by omega
  simp only [Function.comp, Nat.succ_eq_add_one]
  have e1 : i + 1 + j = i + (j + 1) := by omega
  have e2 : n - min C n - j * C = n - (j + 1) * C := by
    rw [hCn, Nat.succ_mul]; omega
  rw [e1, e2]

/-- The bytes at `data + i * C` split into the first chunk and the rest. -/
theorem load_split (data : List Nat) (C i n : Nat) :
    load data (i * C) n
      = load data (i * C) (min C n) ++ load data ((i + 1) * C) (n - min C n) := by
  rcases Nat.lt_or_ge C n with h | h
  · rw [Nat.min_eq_left (Nat.le_of_lt h)]
    unfold load
    have hn2 : n = C + (n - C) := by omega
    conv_lhs => rw [hn2]
    rw [List.take_add, List.drop_drop, Nat.succ_mul]
  · rw [Nat.min_eq_right h, Nat.sub_self]
    simp [load]

/-- The write loop terminates within `n` iterations when the chunk ceiling is
positive; it issues the chunks in order and adds `ret - 1` per chunk. -/
theorem wb_loop_run {σ : Type} (C : Nat) (ioctl : Driver σ) (fd : Int) (cmd : Nat)
    (data : List Nat) (hC : 1 ≤ C) :
    ∀ (fuel i n : Nat) (bt : Int) (s : σ) (bus : List BusCall), n ≤ fuel →
      ∃ (calls : List BusCall) (s1 : σ),
        wb_loop C ioctl fd cmd data fuel i n bt s bus
            = some (bt + (calls.map (fun c => c.ret - 1)).sum, s1, bus ++ calls)
          ∧ calls.map BusCall.msg
              = (List.range ((n + C - 1) / C)).map
                  (fun j => wb_message C cmd data (i + j) (n - j * C))
          ∧ (calls.map (fun c => c.msg.data_len)).sum = n
          ∧ (calls.map (fun c => c.msg.payload)).flatten = load data (i * C) n := by
  intro fuel
  induction fuel with
  | zero =>
    intro i n bt s bus hn
    have h0 : n = 0 := by omega
    subst h0
    exact ⟨[], s, by simp [wb_loop], by rw [range_ceil_zero C hC]; rfl, by simp,
      by simp [load]⟩
  | succ fuel ih =>
    intro i n bt s bus hn
    rcases Nat.eq_zero_or_pos n with h0 | hpos
    · subst h0
      exact ⟨[], s, by simp [wb_loop], by rw [range_ceil_zero C hC]; rfl, by simp,
        by simp [load]⟩
    · have hmin : min C n ≤ n := Nat.min_le_right C n
      have hmin1 : 1 ≤ min C n := by
        rw [Nat.le_min]; exact ⟨hC, hpos⟩
      simp only [wb_loop, gt_iff_lt, hpos, if_true, chunk_size_eq]
      obtain ⟨calls, s1, hrun, hmsg, hlen, hpay⟩ :=
        ih (i + 1) (n - min C n)
          (bt + ((ioctl s fd (wb_message C cmd data i n)).ret - 1))
          (ioctl s fd (wb_message C cmd data i n)).dev
          (bus ++ [⟨wb_message C cmd data i n, (ioctl s fd (wb_message C cmd data i n)).ret⟩])
          (by omega)
      refine ⟨⟨wb_message C cmd data i n, (ioctl s fd (wb_message C cmd data i n)).ret⟩ :: calls,
        s1, ?_, ?_, ?_, ?_⟩
      · simp only [wb_message] at hrun ⊢
        rw [hrun]
        simp [add_assoc]
      · rw [ceil_div_step C n hC hpos, List.range_succ_eq_map, List.map_cons, List.map_cons,
          hmsg, List.map_map, chunk_shift C n i hC (wb_message C cmd data)]
        simp
      · simp only [List.map_cons, List.sum_cons, hlen]
        simp [Message.data_len, wb_message]
      · rw [List.map_cons, List.flatten_cons, hpay, load_split data C i n]
        simp [Message.payload, wb_message]

/-- The read loop terminates within `n` iterations when the chunk ceiling is
positive; it issues the chunks in order and adds `ret - 1` per chunk. -/
theorem rb_loop_run {σ : Type} (C : Nat) (ioctl : Driver σ) (fd : Int) (cmd : Nat)
    (hC : 1 ≤ C) :
    ∀ (fuel i n : Nat) (bt : Int) (data : List Nat) (s : σ) (bus : List BusCall), n ≤ fuel →
      ∃ (calls : List BusCall) (data1 : List Nat) (s1 : σ),
        rb_loop C ioctl fd cmd fuel i n bt data s bus
            = some (bt + (calls.map (fun c => c.ret - 1)).sum, data1, s1, bus ++ calls)
          ∧ calls.map BusCall.msg
              = (List.range ((n + C - 1) / C)).map
                  (fun j => rb_message C cmd (i + j) (n - j * C))
          ∧ (calls.map (fun c => c.msg.data_len)).sum = n := by
  intro fuel
  induction fuel with
  | zero =>
    intro i n bt data s bus hn
    have h0 : n = 0 := by omega
    subst h0
    exact ⟨[], data, s, by simp [rb_loop], by rw [range_ceil_zero C hC]; rfl, by simp⟩
  | succ fuel ih =>
    intro i n bt data s bus hn
    rcases Nat.eq_zero_or_pos n with h0 | hpos
    · subst h0
      exact ⟨[], data, s, by simp [rb_loop], by rw [range_ceil_zero C hC]; rfl, by simp⟩
    · have hmin : min C n ≤ n := Nat.min_le_right C n
      have hmin1 : 1 ≤ min C n := by
        rw [Nat.le_min]; exact ⟨hC, hpos⟩
      simp only [rb_loop, gt_iff_lt, hpos, if_true, chunk_size_eq]
      obtain ⟨calls, data1, s1, hrun, hmsg, hlen⟩ :=
        ih (i + 1) (n - min C n)
          (bt + ((ioctl s fd (rb_message C cmd i n)).ret - 1))
          (store data (i * C) ((ioctl s fd (rb_message C cmd i n)).rx.take (min C n)))
          (ioctl s fd (rb_message C cmd i n)).dev
          (bus ++ [⟨rb_message C cmd i n, (ioctl s fd (rb_message C cmd i n)).ret⟩])
          (by omega)
      refine ⟨⟨rb_message C cmd i n, (ioctl s fd (rb_message C cmd i n)).ret⟩ :: calls,
        data1, s1, ?_, ?_, ?_⟩
      · simp only [rb_message] at hrun ⊢
        rw [hrun]
        simp [add_assoc]
      · rw [ceil_div_step C n hC hpos, List.range_succ_eq_map, List.map_cons, List.map_cons,
          hmsg, List.map_map, chunk_shift C n i hC (rb_message C cmd)]
        simp
      · simp only [List.map_cons, List.sum_cons, hlen]
        simp [Message.data_len, rb_message]

/-- Burst write with a valid handle, a non-null buffer and a size of at least 1:
the call returns, and its result is determined by the chunk list and the sum of
the reported counts. -/
theorem wb_run {σ : Type} (C : Nat) (ioctl : Driver σ) (fuel : Nat) (s : σ) (fd : Int)
    (address : Nat) (B : List Nat) (S : Nat) (hS : 1 ≤ S) (hC : 1 ≤ C) (hfuel : S ≤ fuel) :
    ∃ r, lgw_spi_wb C ioctl fuel s (some fd) address (some B) S = some r
      ∧ r.out = some B
      ∧ (r.ret = Status.LGW_SPI_SUCCESS ↔ (r.bus.map (fun c => c.ret - 1)).sum = (S : Int))
      ∧ (r.ret = Status.LGW_SPI_ERROR ↔ (r.bus.map (fun c => c.ret - 1)).sum ≠ (S : Int))
      ∧ r.bus.map BusCall.msg
          = (List.range ((S + C - 1) / C)).map
              (fun i => wb_message C (WRITE_ACCESS ||| (address &&& 0x7F)) B i (S - i * C))
      ∧ (r.bus.map (fun c => c.msg.data_len)).sum = S
      ∧ (r.bus.map (fun c => c.msg.payload)).flatten = B.take S := by
  obtain ⟨calls, s1, hrun, hmsg, hlen, hpay⟩ :=
    wb_loop_run C ioctl fd (WRITE_ACCESS ||| (address &&& 0x7F)) B hC fuel 0 S 0 s [] hfuel
  have hS0 : S ≠ 0 := by omega
  simp only [Nat.zero_add, List.nil_append, zero_add] at hrun hmsg
  have hpay1 : (calls.map (fun c => c.msg.payload)).flatten = B.take S := by
    rw [hpay]; simp [load]
  by_cases hsum : (calls.map (fun c => c.ret - 1)).sum = (S : Int)
  · refine ⟨⟨Status.LGW_SPI_SUCCESS, some B, s1, calls⟩, ?_, rfl, ?_, ?_, hmsg, hlen, hpay1⟩
    · simp [lgw_spi_wb, hS0, hrun, hsum]
    · simp [hsum]
    · simp [hsum]
  · refine ⟨⟨Status.LGW_SPI_ERROR, some B, s1, calls⟩, ?_, rfl, ?_, ?_, hmsg, hlen, hpay1⟩
    · simp [lgw_spi_wb, hS0, hrun, hsum]
    · simp [hsum]
    · simp [hsum]

/-- Burst read with a valid handle, a non-null buffer and a size of at least 1:
the call returns, and its result is determined by the chunk list and the sum of
the reported counts. -/
theorem rb_run {σ : Type} (C : Nat) (ioctl : Driver σ) (fuel : Nat) (s : σ) (fd : Int)
    (address : Nat) (B : List Nat) (S : Nat) (hS : 1 ≤ S) (hC : 1 ≤ C) (hfuel : S ≤ fuel) :
    ∃ r, lgw_spi_rb C ioctl fuel s (some fd) address (some B) S = some r
      ∧ (r.ret = Status.LGW_SPI_SUCCESS ↔ (r.bus.map (fun c => c.ret - 1)).sum = (S : Int))
      ∧ (r.ret = Status.LGW_SPI_ERROR ↔ (r.bus.map (fun c => c.ret - 1)).sum ≠ (S : Int))
      ∧ r.bus.map BusCall.msg
          = (List.range ((S + C - 1) / C)).map
              (fun i => rb_message C (READ_ACCESS ||| (address &&& 0x7F)) i (S - i * C))
      ∧ (r.bus.map (fun c => c.msg.data_len)).sum = S := by
  obtain ⟨calls, data1, s1, hrun, hmsg, hlen⟩ :=
    rb_loop_run C ioctl fd (READ_ACCESS ||| (address &&& 0x7F)) hC fuel 0 S 0 B s [] hfuel
  have hS0 : S ≠ 0 := by omega
  simp only [Nat.zero_add, List.nil_append, zero_add] at hrun hmsg
  by_cases hsum : (calls.map (fun c => c.ret - 1)).sum = (S : Int)
  · refine ⟨⟨Status.LGW_SPI_SUCCESS, some data1, s1, calls⟩, ?_, ?_, ?_, hmsg, hlen⟩
    · simp [lgw_spi_rb, hS0, hrun, hsum]
    · simp [hsum]
    · simp [hsum]
  · refine ⟨⟨Status.LGW_SPI_ERROR, some data1, s1, calls⟩, ?_, ?_, ?_, hmsg, hlen⟩
    · simp [lgw_spi_rb, hS0, hrun, hsum]
    · simp [hsum]
    · simp [hsum]


/-! ## Burst chunking -/

/-- The number of chunks `(S + C - 1) / C` is the ceiling of `S / C`: it is the
least `n` with `S ≤ n * C`. -/
theorem ceil_div_least (S C : Nat) (hC : 1 ≤ C) (n : Nat) :
    (S + C - 1) / C ≤ n ↔ S ≤ n * C := by
  rw [← Nat.lt_succ_iff, Nat.div_lt_iff_lt_mul (by omega : 0 < C), Nat.succ_mul]
  omega

/-- C1: for every size S in 1..65535, chunk ceiling C ≥ 1, address and driver, both
burst write and burst read with a valid handle and a non-null buffer return and
issue exactly ceil(S/C) bus calls, in increasing chunk order; call number i has a
command phase of length 1 whose byte is tag | (address & 0x7F) (tag 0x80 for write,
0x00 for read) and a data phase of length min(C, S - i*C) at buffer offset i*C. -/
theorem burst_issues_ceil_chunks_in_order {σ : Type} (C : Nat) (ioctl : Driver σ)
    (fuel : Nat) (s : σ) (fd : Int) (address : Nat) (B : List Nat) (S : Nat)
    (hS : 1 ≤ S) (_hS16 : S ≤ 65535) (hC : 1 ≤ C) (hfuel : S ≤ fuel) :
    (∃ r, lgw_spi_wb C ioctl fuel s (some fd) address (some B) S = some r
      ∧ r.bus.length = (S + C - 1) / C
      ∧ r.bus.map BusCall.msg = (List.range ((S + C - 1) / C)).map (fun i =>
          (⟨[⟨Ptr.command, Ptr.NULL, 1, 0, 0, 0⟩,
             ⟨Ptr.data (i * C), Ptr.NULL, min C (S - i * C), 0, SPI_CS_CHANGE, 0⟩],
            [some [0x80 ||| (address &&& 0x7F)],
             some (load B (i * C) (min C (S - i * C)))]⟩ : Message)))
    ∧ (∃ r, lgw_spi_rb C ioctl fuel s (some fd) address (some B) S = some r
      ∧ r.bus.length = (S + C - 1) / C
      ∧ r.bus.map BusCall.msg = (List.range ((S + C - 1) / C)).map (fun i =>
          (⟨[⟨Ptr.command, Ptr.NULL, 1, 0, 0, 0⟩,
             ⟨Ptr.NULL, Ptr.data (i * C), min C (S - i * C), 0, SPI_CS_CHANGE, 0⟩],
            [some [0x00 ||| (address &&& 0x7F)], none]⟩ : Message))) := by
  constructor
  · obtain ⟨r, hr, _, _, _, hmsg, _, _⟩ := wb_run C ioctl fuel s fd address B S hS hC hfuel
    refine ⟨r, hr, ?_, hmsg⟩
    have := congrArg List.length hmsg
    simpa using this
  · obtain ⟨r, hr, _, _, hmsg, _⟩ := rb_run C ioctl fuel s fd address B S hS hC hfuel
    refine ⟨r, hr, ?_, hmsg⟩
    have := congrArg List.length hmsg
    simpa using this

/-- Witness of C1: S = 300 and C = 128 with a driver that reports failure on every
call. -/
theorem burst_issues_ceil_chunks_in_order_witness :
    (∃ r, lgw_spi_wb 128 scripted 300 [] (some 3) 0x10 (some (List.replicate 300 7)) 300
        = some r
      ∧ r.bus.length = (300 + 128 - 1) / 128
      ∧ r.bus.map BusCall.msg = (List.range ((300 + 128 - 1) / 128)).map (fun i =>
          (⟨[⟨Ptr.command, Ptr.NULL, 1, 0, 0, 0⟩,
             ⟨Ptr.data (i * 128), Ptr.NULL, min 128 (300 - i * 128), 0, SPI_CS_CHANGE, 0⟩],
            [some [0x80 ||| (0x10 &&& 0x7F)],
             some (load (List.replicate 300 7) (i * 128) (min 128 (300 - i * 128)))]⟩
            : Message)))
    ∧ (∃ r, lgw_spi_rb 128 scripted 300 [] (some 3) 0x10 (some (List.replicate 300 7)) 300
        = some r
      ∧ r.bus.length = (300 + 128 - 1) / 128
      ∧ r.bus.map BusCall.msg = (List.range ((300 + 128 - 1) / 128)).map (fun i =>
          (⟨[⟨Ptr.command, Ptr.NULL, 1, 0, 0, 0⟩,
             ⟨Ptr.NULL, Ptr.data (i * 128), min 128 (300 - i * 128), 0, SPI_CS_CHANGE, 0⟩],
            [some [0x00 ||| (0x10 &&& 0x7F)], none]⟩ : Message))) :=
  burst_issues_ceil_chunks_in_order 128 scripted 300 [] 3 0x10 (List.replicate 300 7) 300
    (by decide) (by decide) (by decide) (by decide)

/-! ## Burst result -/

/-- C5: for every handle, address and buffer, null or not, burst write and burst
read called with size 0 return LGW_SPI_ERROR, issue no bus call, and leave the
buffer and the driver as they were. -/
theorem burst_size_zero_is_error {σ : Type} (C : Nat) (ioctl : Driver σ) (fuel : Nat)
    (s : σ) (spi_target : Option Int) (address : Nat) (data : Option (List Nat)) :
    lgw_spi_wb C ioctl fuel s spi_target address data 0
        = some ⟨Status.LGW_SPI_ERROR, data, s, []⟩
    ∧ lgw_spi_rb C ioctl fuel s spi_target address data 0
        = some ⟨Status.LGW_SPI_ERROR, data, s, []⟩ := by
  cases spi_target <;> cases data <;> simp [lgw_spi_wb, lgw_spi_rb]


/-! ## Round trip over the echoing chip -/

theorem wb_loop_done {σ : Type} (C : Nat) (ioctl : Driver σ) (fd : Int) (cmd : Nat)
    (data : List Nat) (fuel i : Nat) (bt : Int) (s : σ) (bus : List BusCall) :
    wb_loop C ioctl fd cmd data fuel i 0 bt s bus = some (bt, s, bus) := by
  cases fuel <;> simp [wb_loop]

theorem rb_loop_done {σ : Type} (C : Nat) (ioctl : Driver σ) (fd : Int) (cmd : Nat)
    (fuel i : Nat) (bt : Int) (data : List Nat) (s : σ) (bus : List BusCall) :
    rb_loop C ioctl fd cmd fuel i 0 bt data s bus = some (bt, data, s, bus) := by
  cases fuel <;> simp [rb_loop]

theorem store_of_fits (buf : List Nat) (offset : Nat) (bytes : List Nat)
    (h : offset + bytes.length ≤ buf.length) :
    store buf offset bytes = buf.take offset ++ bytes ++ buf.drop (offset + bytes.length) := by
  unfold store
  have ht : bytes.take (buf.length - offset) = bytes := List.take_of_length_le (by omega)
  rw [ht]

theorem echo_chip_write (q : List Nat) (fd : Int) (C cmd : Nat) (data : List Nat)
    (i n : Nat) :
    echo_chip q fd (wb_message C cmd data i n)
      = ⟨((1 + min C n : Nat) : Int), [], q ++ load data (i * C) (min C n)⟩ := by
  simp [echo_chip, wb_message]

theorem echo_chip_read (q : List Nat) (fd : Int) (C cmd : Nat) (i n : Nat) :
    echo_chip q fd (rb_message C cmd i n)
      = ⟨((1 + min C n : Nat) : Int), q.take (min C n), q.drop (min C n)⟩ := by
  simp [echo_chip, rb_message]

/-- On the echoing chip the write loop appends the `n` bytes at `data + i * C` to
the queue and counts `n` bytes. -/
theorem wb_loop_echo (C : Nat) (fd : Int) (cmd : Nat) (data : List Nat) (hC : 1 ≤ C) :
    ∀ (fuel i n : Nat) (bt : Int) (q : List Nat) (bus : List BusCall), n ≤ fuel →
      ∃ bus1, wb_loop C echo_chip fd cmd data fuel i n bt q bus
        = some (bt + (n : Int), q ++ load data (i * C) n, bus1) := by
  intro fuel
  induction fuel with
  | zero =>
    intro i n bt q bus hn
    have h0 : n = 0 := by omega
    subst h0
    exact ⟨bus, by simp [wb_loop, load]⟩
  | succ fuel ih =>
    intro i n bt q bus hn
    rcases Nat.eq_zero_or_pos n with h0 | hpos
    · subst h0
      exact ⟨bus, by simp [wb_loop, load]⟩
    · simp only [wb_loop, gt_iff_lt, hpos, if_true, chunk_size_eq]
      have hw := echo_chip_write q fd C cmd data i n
      simp only [wb_message] at hw
      rw [hw]
      rcases Nat.lt_or_ge C n with h | h
      · have hmin : min C n = C := Nat.min_eq_left (Nat.le_of_lt h)
        obtain ⟨bus1, hrun⟩ := ih (i + 1) (n - C) (bt + (((1 + C : Nat) : Int) - 1))
          (q ++ load data (i * C) C)
          (bus ++ [⟨wb_message C cmd data i n, ((1 + C : Nat) : Int)⟩]) (by omega)
        refine ⟨bus1, ?_⟩
        simp only [wb_message, hmin] at hrun ⊢
        rw [hrun]
        have e1 : load data (i * C) n
            = load data (i * C) C ++ load data ((i + 1) * C) (n - C) := by
          unfold load
          have hn2 : n = C + (n - C) := by omega
          conv_lhs => rw [hn2]
          rw [List.take_add, List.drop_drop, Nat.succ_mul]
        rw [e1]
        simp only [List.append_assoc, Nat.cast_add, Nat.cast_one]
        have e2 : bt + (1 + (C : Int) - 1) + ((n - C : Nat) : Int) = bt + (n : Int) := by
          omega
        rw [e2]
      · have hmin : min C n = n := Nat.min_eq_right h
        refine ⟨bus ++ [⟨wb_message C cmd data i n, ((1 + n : Nat) : Int)⟩], ?_⟩
        simp only [wb_message, hmin, Nat.sub_self]
        rw [wb_loop_done]
        simp only [Nat.cast_add, Nat.cast_one]
        have e2 : bt + (1 + (n : Int) - 1) = bt + (n : Int) := by omega
        rw [e2]

/-- On the echoing chip the read loop moves the first `n` bytes of the queue to
`data + i * C` and counts `n` bytes. -/
theorem rb_loop_echo (C : Nat) (fd : Int) (cmd : Nat) (hC : 1 ≤ C) :
    ∀ (fuel i n : Nat) (bt : Int) (data q : List Nat) (bus : List BusCall), n ≤ fuel →
      (n = 0 ∨ i * C + n ≤ data.length) → n ≤ q.length →
      ∃ bus1, rb_loop C echo_chip fd cmd fuel i n bt data q bus
        = some (bt + (n : Int), data.take (i * C) ++ q.take n ++ data.drop (i * C + n),
            q.drop n, bus1) := by
  intro fuel
  induction fuel with
  | zero =>
    intro i n bt data q bus hn _ _
    have h0 : n = 0 := by omega
    subst h0
    exact ⟨bus, by simp [rb_loop]⟩
  | succ fuel ih =>
    intro i n bt data q bus hn hdata hq
    rcases Nat.eq_zero_or_pos n with h0 | hpos
    · subst h0
      exact ⟨bus, by simp [rb_loop]⟩
    · have hfit : i * C + n ≤ data.length := by
        rcases hdata with h | h
        · omega
        · exact h
      simp only [rb_loop, gt_iff_lt, hpos, if_true, chunk_size_eq]
      have hr := echo_chip_read q fd C cmd i n
      simp only [rb_message] at hr
      rw [hr]
      simp only [List.take_take, Nat.min_self]
      rcases Nat.lt_or_ge C n with h | h
      · have hmin : min C n = C := Nat.min_eq_left (Nat.le_of_lt h)
        simp only [hmin]
        have hlenq : (q.take C).length = C := by
          rw [List.length_take]; omega
        have hst : store data (i * C) (q.take C)
            = data.take (i * C) ++ q.take C ++ data.drop (i * C + C) := by
          rw [store_of_fits _ _ _ (by omega), hlenq]
        have hlen1 : (data.take (i * C) ++ q.take C).length = i * C + C := by
          rw [List.length_append, List.length_take, hlenq]; omega
        have hlen2 : (store data (i * C) (q.take C)).length = data.length := by
          rw [hst, List.length_append, hlen1, List.length_drop]; omega
        obtain ⟨bus1, hrun⟩ := ih (i + 1) (n - C) (bt + (((1 + C : Nat) : Int) - 1))
          (store data (i * C) (q.take C)) (q.drop C)
          (bus ++ [⟨rb_message C cmd i n, ((1 + C : Nat) : Int)⟩]) (by omega)
          (Or.inr (by rw [hlen2, Nat.succ_mul]; omega))
          (by rw [List.length_drop]; omega)
        refine ⟨bus1, ?_⟩
        simp only [rb_message, hmin] at hrun ⊢
        rw [hrun]
        have e2 : bt + (((1 + C : Nat) : Int) - 1) + ((n - C : Nat) : Int) = bt + (n : Int) := by
          omega
        have e3 : (store data (i * C) (q.take C)).take ((i + 1) * C)
            = data.take (i * C) ++ q.take C := by
          rw [hst, Nat.succ_mul]
          exact List.take_left' hlen1
        have e4 : (store data (i * C) (q.take C)).drop ((i + 1) * C + (n - C))
            = data.drop (i * C + n) := by
          rw [hst, Nat.succ_mul, ← hlen1, List.drop_append, List.drop_drop, hlen1]
          congr 1
          omega
        have e5 : q.take n = q.take C ++ (q.drop C).take (n - C) := by
          have hn2 : n = C + (n - C) := by omega
          conv_lhs => rw [hn2]
          rw [List.take_add]
        have e6 : (q.drop C).drop (n - C) = q.drop n := by
          rw [List.drop_drop]
          congr 1
          omega
        rw [e2, e3, e4, e5, e6]
        simp only [List.append_assoc]
      · have hmin : min C n = n := Nat.min_eq_right h
        refine ⟨bus ++ [⟨rb_message C cmd i n, ((1 + n : Nat) : Int)⟩], ?_⟩
        simp only [rb_message, hmin, Nat.sub_self]
        rw [rb_loop_done]
        have hlenq : (q.take n).length = n := by
          rw [List.length_take]; omega
        rw [store_of_fits _ _ _ (by omega), hlenq]
        have e2 : bt + (((1 + n : Nat) : Int) - 1) = bt + (n : Int) := by omega
        rw [e2]

/-- C2: over the echoing chip, for every buffer B of length S in 1..65535, every
address and every chunk ceiling C ≥ 1, a burst write of B followed by a burst read
of S bytes both return success and leave the read buffer equal to B; the bytes the
chip stored, which are the data phases of the write in order, are exactly B. -/
theorem burst_write_then_read_gives_back (C fuel : Nat) (fd : Int) (A : Nat)
    (B buf : List Nat) (S : Nat) (hB : B.length = S) (hbuf : buf.length = S)
    (hS : 1 ≤ S) (_hS16 : S ≤ 65535) (hC : 1 ≤ C) (hfuel : S ≤ fuel) :
    ∃ w r, lgw_spi_wb C echo_chip fuel [] (some fd) A (some B) S = some w
      ∧ w.ret = Status.LGW_SPI_SUCCESS
      ∧ (w.bus.map (fun c => c.msg.payload)).flatten = B
      ∧ w.dev = B
      ∧ lgw_spi_rb C echo_chip fuel w.dev (some fd) A (some buf) S = some r
      ∧ r.ret = Status.LGW_SPI_SUCCESS
      ∧ r.out = some B := by
  have hS0 : S ≠ 0 := by omega
  obtain ⟨bus1, hw⟩ := wb_loop_echo C fd (WRITE_ACCESS ||| (A &&& 0x7F)) B hC fuel 0 S 0 []
    [] hfuel
  have hloadB : load B (0 * C) S = B := by
    unfold load
    rw [Nat.zero_mul, List.drop_zero, List.take_of_length_le (by omega)]
  rw [hloadB] at hw
  simp only [zero_add, List.nil_append] at hw
  obtain ⟨bus2, hr⟩ := rb_loop_echo C fd (READ_ACCESS ||| (A &&& 0x7F)) hC fuel 0 S 0 buf B
    [] hfuel (Or.inr (by omega)) (by omega)
  have hout : buf.take (0 * C) ++ B.take S ++ buf.drop (0 * C + S) = B := by
    rw [Nat.zero_mul, List.take_zero, Nat.zero_add, List.drop_of_length_le (by omega),
      List.take_of_length_le (by omega)]
    simp
  rw [hout] at hr
  simp only [zero_add] at hr
  have hwb : lgw_spi_wb C echo_chip fuel [] (some fd) A (some B) S
      = some ⟨Status.LGW_SPI_SUCCESS, some B, B, bus1⟩ := by
    simp [lgw_spi_wb, hS0, hw]
  have hpay : (bus1.map (fun c => c.msg.payload)).flatten = B := by
    obtain ⟨r, hr1, _, _, _, _, _, hp⟩ := wb_run C echo_chip fuel [] fd A B S hS hC hfuel
    rw [hwb] at hr1
    have hr2 := Option.some.inj hr1
    subst hr2
    rw [hp, List.take_of_length_le (by omega)]
  refine ⟨⟨Status.LGW_SPI_SUCCESS, some B, B, bus1⟩,
    ⟨Status.LGW_SPI_SUCCESS, some B, B.drop S, bus2⟩, hwb, rfl, hpay, rfl, ?_, rfl, rfl⟩
  simp [lgw_spi_rb, hS0, hr]

/-- Witness of C2: S = 5 and C = 2, chunks of 2, 2 and 1 bytes. -/
theorem burst_write_then_read_gives_back_witness :
    ∃ w r, lgw_spi_wb 2 echo_chip 5 [] (some 3) 0x10 (some [10, 20, 30, 40, 50]) 5 = some w
      ∧ w.ret = Status.LGW_SPI_SUCCESS
      ∧ (w.bus.map (fun c => c.msg.payload)).flatten = [10, 20, 30, 40, 50]
      ∧ w.dev = [10, 20, 30, 40, 50]
      ∧ lgw_spi_rb 2 echo_chip 5 w.dev (some 3) 0x10 (some [0, 0, 0, 0, 0]) 5 = some r
      ∧ r.ret = Status.LGW_SPI_SUCCESS
      ∧ r.out = some [10, 20, 30, 40, 50] :=
  burst_write_then_read_gives_back 2 5 3 0x10 [10, 20, 30, 40, 50] [0, 0, 0, 0, 0] 5
    (by decide) (by decide) (by decide) (by decide) (by decide) (by decide)

/-- The example of the round-trip property: S = 300 and C = 128 give data phases of
128, 128 and 44 bytes at offsets 0, 128 and 256. -/
theorem burst_chunks_300_by_128 :
    (lgw_spi_wb 128 echo_chip 300 [] (some 3) 0x10 (some (List.replicate 300 7)) 300).map
        (fun r => (r.ret, r.bus.map
          (fun c => ((c.msg.k.getD 1 spi_ioc_transfer.cleared).tx_buf, c.msg.data_len))))
      = some (Status.LGW_SPI_SUCCESS,
          [(Ptr.data 0, 128), (Ptr.data 128, 128), (Ptr.data 256, 44)]) := by
  decide


/-! ## Single-register access -/

/-- C6: for every address a and value v, a single write with a valid handle issues
exactly one bus call, a single phase transmitting the two bytes
[0x80 | (a & 0x7F), v], and returns LGW_SPI_SUCCESS when the driver reports 2 and
LGW_SPI_ERROR for any other count; writing 0xAB to 0x10 transmits [0x90, 0xAB]. -/
theorem single_write_frame_and_result {σ : Type} (ioctl : Driver σ) (s : σ) (fd : Int)
    (a v : Nat) :
    (lgw_spi_w ioctl s (some fd) a v).bus.map BusCall.msg
        = [⟨[⟨Ptr.out_buf, Ptr.NULL, 2, SPI_SPEED, SPI_CS_CHANGE, 8⟩],
            [some [0x80 ||| (a &&& 0x7F), v]]⟩]
    ∧ (lgw_spi_w ioctl s (some fd) a v).bus.map BusCall.ret
        = [(ioctl s fd ⟨[⟨Ptr.out_buf, Ptr.NULL, 2, SPI_SPEED, SPI_CS_CHANGE, 8⟩],
            [some [0x80 ||| (a &&& 0x7F), v]]⟩).ret]
    ∧ (lgw_spi_w ioctl s (some fd) a v).ret
        = (if (ioctl s fd ⟨[⟨Ptr.out_buf, Ptr.NULL, 2, SPI_SPEED, SPI_CS_CHANGE, 8⟩],
              [some [0x80 ||| (a &&& 0x7F), v]]⟩).ret = 2
            then Status.LGW_SPI_SUCCESS else Status.LGW_SPI_ERROR)
    ∧ (lgw_spi_w ioctl s (some fd) 0x10 0xAB).bus.map (fun c => c.msg.tx)
        = [[some [0x90, 0xAB]]] := by
  refine ⟨?_, ?_, ?_, ?_⟩
  · simp only [lgw_spi_w, load, WRITE_ACCESS]
    split <;> simp
  · simp only [lgw_spi_w, load, WRITE_ACCESS]
    split <;> simp
  · simp only [lgw_spi_w, load, WRITE_ACCESS]
    split <;> simp_all
  · simp only [lgw_spi_w, load, WRITE_ACCESS]
    split <;> simp <;> decide

/-- C7: for every address a, a single read in the full-duplex build
(CFG_SPI_HALF_DUPLEX not 1) with a valid handle and a non-null output issues
exactly one bus call, a single 2-byte phase transmitting [a & 0x7F, 0x00] and
receiving into in_buf; if the driver reports 2 the call returns LGW_SPI_SUCCESS
and stores the second received byte in the output, for any other count it returns
LGW_SPI_ERROR and the output keeps its old value; reading 0x10 transmits
[0x10, 0x00]. -/
theorem single_read_frame_and_result {σ : Type} (cfg : Nat) (ioctl : Driver σ) (s : σ)
    (fd : Int) (a old : Nat) (in_buf : List Nat) (hcfg : cfg ≠ 1)
    (hin : in_buf.length = 2) :
    (lgw_spi_r cfg ioctl s (some fd) a (some old) in_buf).bus.map BusCall.msg
        = [⟨[⟨Ptr.out_buf, Ptr.in_buf, 2, 0, SPI_CS_CHANGE, 0⟩],
            [some [a &&& 0x7F, 0x00]]⟩]
    ∧ (lgw_spi_r cfg ioctl s (some fd) a (some old) in_buf).bus.map BusCall.ret
        = [(ioctl s fd ⟨[⟨Ptr.out_buf, Ptr.in_buf, 2, 0, SPI_CS_CHANGE, 0⟩],
            [some [a &&& 0x7F, 0x00]]⟩).ret]
    ∧ ((ioctl s fd ⟨[⟨Ptr.out_buf, Ptr.in_buf, 2, 0, SPI_CS_CHANGE, 0⟩],
            [some [a &&& 0x7F, 0x00]]⟩).ret = 2 →
        (lgw_spi_r cfg ioctl s (some fd) a (some old) in_buf).ret = Status.LGW_SPI_SUCCESS
        ∧ ∀ r0 r1 rest,
            (ioctl s fd ⟨[⟨Ptr.out_buf, Ptr.in_buf, 2, 0, SPI_CS_CHANGE, 0⟩],
              [some [a &&& 0x7F, 0x00]]⟩).rx = r0 :: r1 :: rest →
            (lgw_spi_r cfg ioctl s (some fd) a (some old) in_buf).out = some r1)
    ∧ ((ioctl s fd ⟨[⟨Ptr.out_buf, Ptr.in_buf, 2, 0, SPI_CS_CHANGE, 0⟩],
            [some [a &&& 0x7F, 0x00]]⟩).ret ≠ 2 →
        (lgw_spi_r cfg ioctl s (some fd) a (some old) in_buf).ret = Status.LGW_SPI_ERROR
        ∧ (lgw_spi_r cfg ioctl s (some fd) a (some old) in_buf).out = some old)
    ∧ (lgw_spi_r cfg ioctl s (some fd) 0x10 (some old) in_buf).bus.map (fun c => c.msg.tx)
        = [[some [0x10, 0x00]]] := by
  refine ⟨?_, ?_, ?_, ?_, ?_⟩
  · simp only [lgw_spi_r, load, READ_ACCESS, hcfg, if_false, Nat.zero_or]
    split <;> simp
  · simp only [lgw_spi_r, load, READ_ACCESS, hcfg, if_false, Nat.zero_or]
    split <;> simp
  · intro h2
    simp only [lgw_spi_r, load, READ_ACCESS, hcfg, if_false, Nat.zero_or] at h2 ⊢
    simp only [List.drop_zero, List.take_succ_cons, List.take_zero] at h2 ⊢
    refine ⟨by simp [h2], ?_⟩
    intro r0 r1 rest hrx
    simp [h2, hrx, store, hin]
  · intro h2
    simp only [lgw_spi_r, load, READ_ACCESS, hcfg, if_false, Nat.zero_or] at h2 ⊢
    simp only [List.drop_zero, List.take_succ_cons, List.take_zero] at h2 ⊢
    simp [h2]
  · simp only [lgw_spi_r, load, READ_ACCESS, hcfg, if_false, Nat.zero_or]
    split <;> simp <;> decide

/-- Witness of C7: the default build (flag 0), address 0x10, a driver that reports
2 and delivers the bytes 0x00, 0x5A. -/
theorem single_read_frame_and_result_witness :
    (lgw_spi_r 0 (fun (q : List Int) _ _ => ⟨q.headD (-1), [0x00, 0x5A], q.tail⟩) [2]
        (some 3) 0x10 (some 0xEE) [0, 0]).ret = Status.LGW_SPI_SUCCESS
    ∧ (lgw_spi_r 0 (fun (q : List Int) _ _ => ⟨q.headD (-1), [0x00, 0x5A], q.tail⟩) [2]
        (some 3) 0x10 (some 0xEE) [0, 0]).out = some 0x5A :=
  ⟨((single_read_frame_and_result 0
      (fun (q : List Int) _ _ => ⟨q.headD (-1), [0x00, 0x5A], q.tail⟩) [2] 3 0x10 0xEE [0, 0]
      (by decide) (by decide)).2.2.1 (by decide)).1,
   ((single_read_frame_and_result 0
      (fun (q : List Int) _ _ => ⟨q.headD (-1), [0x00, 0x5A], q.tail⟩) [2] 3 0x10 0xEE [0, 0]
      (by decide) (by decide)).2.2.1 (by decide)).2 0x00 0x5A [] rfl⟩

/-! ## Address masking -/

theorem mask_idem (a : Nat) : (a &&& 0x7F) &&& 0x7F = a &&& 0x7F := by
  rw [Nat.land_assoc, Nat.and_self]

/-- C8: for every address a in 0..255, each of the four operations called with
address a behaves exactly as the same call with address a & 0x7F: same return
code, same caller memory, same bus calls and same driver state; in particular
0x85 and 0x05 address the same register. -/
theorem address_bit7_is_masked {σ : Type} (C cfg fuel : Nat) (ioctl : Driver σ) (s : σ)
    (spi_target : Option Int) (a v : Nat) (data : Option Nat) (in_buf : List Nat)
    (buf : Option (List Nat)) (S : Nat) (_ha : a ≤ 255) :
    lgw_spi_w ioctl s spi_target a v = lgw_spi_w ioctl s spi_target (a &&& 0x7F) v
    ∧ lgw_spi_r cfg ioctl s spi_target a data in_buf
        = lgw_spi_r cfg ioctl s spi_target (a &&& 0x7F) data in_buf
    ∧ lgw_spi_wb C ioctl fuel s spi_target a buf S
        = lgw_spi_wb C ioctl fuel s spi_target (a &&& 0x7F) buf S
    ∧ lgw_spi_rb C ioctl fuel s spi_target a buf S
        = lgw_spi_rb C ioctl fuel s spi_target (a &&& 0x7F) buf S := by
  refine ⟨?_, ?_, ?_, ?_⟩
  · simp only [lgw_spi_w, mask_idem]
  · simp only [lgw_spi_r, mask_idem]
  · simp only [lgw_spi_wb, mask_idem]
  · simp only [lgw_spi_rb, mask_idem]

/-- Witness of C8: address 0x85 behaves as address 0x05. -/
theorem address_bit7_is_masked_witness :
    lgw_spi_w scripted [3, 2] (some 3) 0x85 0xAB = lgw_spi_w scripted [3, 2] (some 3) 0x05 0xAB
    ∧ lgw_spi_r 0 scripted [3, 2] (some 3) 0x85 (some 0) [0, 0]
        = lgw_spi_r 0 scripted [3, 2] (some 3) 0x05 (some 0) [0, 0]
    ∧ lgw_spi_wb 2 scripted 3 [3, 2] (some 3) 0x85 (some [1, 2, 3]) 3
        = lgw_spi_wb 2 scripted 3 [3, 2] (some 3) 0x05 (some [1, 2, 3]) 3
    ∧ lgw_spi_rb 2 scripted 3 [3, 2] (some 3) 0x85 (some [1, 2, 3]) 3
        = lgw_spi_rb 2 scripted 3 [3, 2] (some 3) 0x05 (some [1, 2, 3]) 3 :=
  address_bit7_is_masked 2 0 3 scripted [3, 2] (some 3) 0x85 0xAB (some 0) [0, 0]
    (some [1, 2, 3]) 3 (by decide)


/-! ## Failure propagation in a burst -/

/-- C10 as stated fails in two ways.  With every call succeeding and the mode
readback leaving 3 in place of the requested SPI_MODE_0, the open returns
LGW_SPI_SUCCESS.  With the word-width set request failing, the open returns
LGW_SPI_ERROR and closes the device, and the descriptor block is not freed. -/
theorem open_accepts_mismatch_and_keeps_block :
    (env_ok 3).readback Request.SPI_IOC_RD_MODE ≠ SPI_MODE_0
    ∧ (lgw_spi_open (env_ok 3) (some none)).ret = Status.LGW_SPI_SUCCESS
    ∧ (lgw_spi_open (env_fail Request.SPI_IOC_WR_BITS_PER_WORD) (some none)).ret
        = Status.LGW_SPI_ERROR
    ∧ Sys.malloc ∈ (lgw_spi_open (env_fail Request.SPI_IOC_WR_BITS_PER_WORD) (some none)).sys
    ∧ Sys.close 3 ∈ (lgw_spi_open (env_fail Request.SPI_IOC_WR_BITS_PER_WORD) (some none)).sys
    ∧ Sys.free ∉ (lgw_spi_open (env_fail Request.SPI_IOC_WR_BITS_PER_WORD) (some none)).sys := by
  decide

/-- The failure paths of the mode, speed and bit-order steps free the descriptor
block; the failure path of the word-width step and the failure path of `open` do
not. -/
theorem open_free_by_failing_step :
    Sys.free ∈ (lgw_spi_open (env_fail Request.SPI_IOC_RD_MODE) (some none)).sys
    ∧ Sys.free ∈ (lgw_spi_open (env_fail Request.SPI_IOC_RD_MAX_SPEED_HZ) (some none)).sys
    ∧ Sys.free ∈ (lgw_spi_open (env_fail Request.SPI_IOC_RD_LSB_FIRST) (some none)).sys
    ∧ Sys.free ∉ (lgw_spi_open (env_fail Request.SPI_IOC_RD_BITS_PER_WORD) (some none)).sys
    ∧ (lgw_spi_open ⟨true, -1, fun _ => 0, fun _ => 0⟩ (some none)).sys
        = [Sys.malloc, Sys.open_dev] := by
  decide

/-- C10 (amended): for every outcome of malloc, of the device open and of the
eight configuration calls, lgw_spi_open with a non-null slot pointer returns
LGW_SPI_SUCCESS exactly when malloc, open and all eight calls succeed, whatever
values the readbacks leave, and the slot then holds the opened device; otherwise
it returns LGW_SPI_ERROR and the slot keeps its old content.  When the device was
opened and one of the eight calls fails, the device is closed before returning,
and when the failing call belongs to the mode, speed or bit-order step the
descriptor block is freed as well. -/
theorem open_result_and_release (env : OpenEnv) (slot : Option Int) :
    ((lgw_spi_open env (some slot)).ret = Status.LGW_SPI_SUCCESS
        ↔ env.malloc_ok = true ∧ 0 ≤ env.open_ret ∧ ∀ req, 0 ≤ env.ioctl_ret req)
    ∧ ((lgw_spi_open env (some slot)).ret = Status.LGW_SPI_SUCCESS →
        (lgw_spi_open env (some slot)).slot = some (some env.open_ret))
    ∧ ((lgw_spi_open env (some slot)).ret = Status.LGW_SPI_ERROR →
        (lgw_spi_open env (some slot)).slot = some slot)
    ∧ (env.malloc_ok = true → 0 ≤ env.open_ret → (∃ req, env.ioctl_ret req < 0) →
        (lgw_spi_open env (some slot)).ret = Status.LGW_SPI_ERROR
        ∧ Sys.close env.open_ret ∈ (lgw_spi_open env (some slot)).sys)
    ∧ (env.malloc_ok = true → 0 ≤ env.open_ret →
        (env.ioctl_ret Request.SPI_IOC_WR_MODE < 0
          ∨ env.ioctl_ret Request.SPI_IOC_RD_MODE < 0
          ∨ env.ioctl_ret Request.SPI_IOC_WR_MAX_SPEED_HZ < 0
          ∨ env.ioctl_ret Request.SPI_IOC_RD_MAX_SPEED_HZ < 0
          ∨ env.ioctl_ret Request.SPI_IOC_WR_LSB_FIRST < 0
          ∨ env.ioctl_ret Request.SPI_IOC_RD_LSB_FIRST < 0) →
        Sys.free ∈ (lgw_spi_open env (some slot)).sys) := by
  refine ⟨?_, ?_, ?_, ?_, ?_⟩
  · constructor
    · intro h
      simp only [lgw_spi_open] at h
      split_ifs at h with h1 h2 h3 h4 h5 h6
      refine ⟨by simpa using h1, by omega, ?_⟩
      intro req
      cases req <;> omega
    · rintro ⟨h1, h2, h3⟩
      have a1 := h3 Request.SPI_IOC_WR_MODE
      have a2 := h3 Request.SPI_IOC_RD_MODE
      have a3 := h3 Request.SPI_IOC_WR_MAX_SPEED_HZ
      have a4 := h3 Request.SPI_IOC_RD_MAX_SPEED_HZ
      have a5 := h3 Request.SPI_IOC_WR_LSB_FIRST
      have a6 := h3 Request.SPI_IOC_RD_LSB_FIRST
      have a7 := h3 Request.SPI_IOC_WR_BITS_PER_WORD
      have a8 := h3 Request.SPI_IOC_RD_BITS_PER_WORD
      simp only [lgw_spi_open]
      split_ifs <;> first | rfl | omega | simp_all
  · intro h
    simp only [lgw_spi_open] at h ⊢
    split_ifs at h ⊢
    rfl
  · intro h
    simp only [lgw_spi_open] at h ⊢
    split_ifs at h ⊢ <;> rfl
  · rintro h1 h2 ⟨req, h3⟩
    simp only [lgw_spi_open]
    split_ifs <;> first | omega | (exfalso; cases req <;> omega) | simp_all
  · intro h1 h2 h3
    simp only [lgw_spi_open]
    split_ifs <;> first | omega | simp_all


/-- Witness of C10 (amended): the mode readback request fails with -1 after the
device was opened as descriptor 3. -/
theorem open_result_and_release_witness :
    (lgw_spi_open (env_fail Request.SPI_IOC_RD_MODE) (some none)).ret = Status.LGW_SPI_ERROR
    ∧ Sys.close 3 ∈ (lgw_spi_open (env_fail Request.SPI_IOC_RD_MODE) (some none)).sys :=
  (open_result_and_release (env_fail Request.SPI_IOC_RD_MODE) none).2.2.2.1
    (by decide) (by decide) ⟨Request.SPI_IOC_RD_MODE, by decide⟩

/-! ## Range of the accumulator -/

theorem sum_within (l : List Int) (h : ∀ x ∈ l, -16385 ≤ x ∧ x ≤ 16385) :
    -16385 * (l.length : Int) ≤ l.sum ∧ l.sum ≤ 16385 * (l.length : Int) := by
  induction l with
  | nil => simp
  | cons x t ih =>
    have hx := h x (List.mem_cons_self x t)
    have ht := ih (fun y hy => h y (List.mem_cons_of_mem x hy))
    simp only [List.sum_cons, List.length_cons]
    push_cast
    omega

theorem initial_sum_fits (bus : List BusCall) (j : Nat) (hlen : bus.length ≤ 65535)
    (h : ∀ c ∈ bus, -16384 ≤ c.ret ∧ c.ret ≤ 16384) :
    -2147483648 ≤ ((bus.take j).map (fun c => c.ret - 1)).sum
      ∧ ((bus.take j).map (fun c => c.ret - 1)).sum ≤ 2147483647 := by
  have hb := sum_within ((bus.take j).map (fun c => c.ret - 1)) (by
    intro x hx
    obtain ⟨c, hc, rfl⟩ := List.mem_map.mp hx
    have := h c (List.mem_of_mem_take hc)
    omega)
  have hl : ((bus.take j).map (fun c => c.ret - 1)).length ≤ 65535 := by
    rw [List.length_map, List.length_take]
    omega
  omega

/-- The accumulator `byte_transfered` stays inside the range of a 32-bit `int`:
for a size of at most 65535 and a driver whose reported counts lie in
-16384..16384, the sum of `ret - 1` over every initial segment of the bus calls of
a burst lies in -2^31 .. 2^31 - 1. -/
theorem byte_transfered_fits_int {σ : Type} (C : Nat) (ioctl : Driver σ)
    (fuel : Nat) (s : σ) (fd : Int) (address : Nat) (B : List Nat) (S : Nat)
    (hS : 1 ≤ S) (hS16 : S ≤ 65535) (hC : 1 ≤ C) (hfuel : S ≤ fuel) :
    (∃ r, lgw_spi_wb C ioctl fuel s (some fd) address (some B) S = some r
      ∧ ((∀ c ∈ r.bus, -16384 ≤ c.ret ∧ c.ret ≤ 16384) → ∀ j,
          -2147483648 ≤ ((r.bus.take j).map (fun c => c.ret - 1)).sum
          ∧ ((r.bus.take j).map (fun c => c.ret - 1)).sum ≤ 2147483647))
    ∧ (∃ r, lgw_spi_rb C ioctl fuel s (some fd) address (some B) S = some r
      ∧ ((∀ c ∈ r.bus, -16384 ≤ c.ret ∧ c.ret ≤ 16384) → ∀ j,
          -2147483648 ≤ ((r.bus.take j).map (fun c => c.ret - 1)).sum
          ∧ ((r.bus.take j).map (fun c => c.ret - 1)).sum ≤ 2147483647)) := by
  have hceil : (S + C - 1) / C ≤ 65535 := by
    have h1 : (S + C - 1) / C ≤ S := by
      rw [ceil_div_least S C hC S]
      exact Nat.le_mul_of_pos_right S (by omega)
    omega
  constructor
  · obtain ⟨r, hr, _, _, _, hmsg, _, _⟩ := wb_run C ioctl fuel s fd address B S hS hC hfuel
    refine ⟨r, hr, fun hb j => initial_sum_fits r.bus j ?_ hb⟩
    have := congrArg List.length hmsg
    simp only [List.length_map, List.length_range] at this
    omega
  · obtain ⟨r, hr, _, _, hmsg, _⟩ := rb_run C ioctl fuel s fd address B S hS hC hfuel
    refine ⟨r, hr, fun hb j => initial_sum_fits r.bus j ?_ hb⟩
    have := congrArg List.length hmsg
    simp only [List.length_map, List.length_range] at this
    omega

end LoragwSpi
